import Mathlib

/-!
# SITL fixed-wing plane model (`libraries/SITL/SIM_Plane.cpp`)

A shallow embedding of the aerodynamic force and torque model of the SITL
plane simulator, and theorems about it.

Conventions of the embedding:

* C `float`/`double` values are idealised as elements of a linearly ordered
  field `K` (rounding, infinities and NaN are not represented); the theorems
  about `exp`, `sin`, `cos` and `π` are stated for `K = ℝ`.
* The C math library is a parameter (`Libm`), so every definition is
  executable over `ℚ` once approximations of the functions are supplied.
* `uint16_t` servo pulse widths are natural numbers; the subtraction of the
  neutral value happens in `int`, here `ℤ`, before the conversion to `float`.
* Member variables of the C++ object are the fields of `Plane`; a method that
  mutates the object returns the new object.
-/

namespace SITL

/-! ## Vectors and matrices (`AP_Math`) -/

/-- Three-component vector, the `Vector3f` of `AP_Math`. -/
@[ext]
structure Vector3 (K : Type) where
  x : K
  y : K
  z : K
deriving DecidableEq

instance {K : Type} [Zero K] : Zero (Vector3 K) := ⟨⟨0, 0, 0⟩⟩

instance {K : Type} [Add K] : Add (Vector3 K) :=
  ⟨fun u v => ⟨u.x + v.x, u.y + v.y, u.z + v.z⟩⟩

instance {K : Type} [Sub K] : Sub (Vector3 K) :=
  ⟨fun u v => ⟨u.x - v.x, u.y - v.y, u.z - v.z⟩⟩

/-- Three by three matrix stored by rows `a`, `b`, `c`, the `Matrix3f` of `AP_Math`. -/
@[ext]
structure Matrix3 (K : Type) where
  a : Vector3 K
  b : Vector3 K
  c : Vector3 K

/-- Transpose of a matrix (`Matrix3::transposed`). -/
def Matrix3.transposed {K : Type} (m : Matrix3 K) : Matrix3 K :=
  ⟨⟨m.a.x, m.b.x, m.c.x⟩, ⟨m.a.y, m.b.y, m.c.y⟩, ⟨m.a.z, m.b.z, m.c.z⟩⟩

/-- Matrix times column vector (`Matrix3::operator*`). -/
def Matrix3.mulVec {K : Type} [Add K] [Mul K] (m : Matrix3 K) (v : Vector3 K) : Vector3 K :=
  ⟨m.a.x * v.x + m.a.y * v.y + m.a.z * v.z,
   m.b.x * v.x + m.b.y * v.y + m.b.z * v.z,
   m.c.x * v.x + m.c.y * v.y + m.c.z * v.z⟩

/-! ## The C math library -/

/-- The functions and constants of the C math library used by the model.
`atan2 y x` has the argument order of C. `negZero` tells whether a zero handed
to `copysign` as its sign argument has its sign bit set: an element of a field
carries no sign bit, so the bit is kept beside the functions. -/
structure Libm (K : Type) where
  exp : K → K
  sin : K → K
  cos : K → K
  atan2 : K → K → K
  pi : K
  negZero : Bool

section Defs

variable {K : Type} [LinearOrderedField K]

/-- The C function `copysign x y`: the magnitude of `x` with the sign of `y`. -/
def Libm.copysign (M : Libm K) (x y : K) : K :=
  if y < 0 ∨ (y = 0 ∧ M.negZero = true) then -|x| else |x|

/-- The constant `FLT_EPSILON` of `float.h`, `2⁻²³`. -/
def FLT_EPSILON : K := 1 / 2 ^ 23

/-- Modelled from the spec: `is_zero` is declared in `AP_Math`, which is not part of
the sources at hand; it is the epsilon-aware comparison of a `float` with zero,
`fabsf(x) < FLT_EPSILON`. -/
def is_zero (x : K) : Bool := decide (|x| < FLT_EPSILON)

/-- Modelled from the spec: `constrain_float` is declared in `AP_Math`, which is not
part of the sources at hand; it clamps `amt` to the range `[low, high]`. -/
def constrain_float (amt low high : K) : K :=
  if amt < low then low else if amt > high then high else amt

/-! ## Data model -/

/-- The aerodynamic coefficient set (member `coefficient` of `Plane`); the fields are
the ones the source reads. -/
structure Coefficient (K : Type) where
  s : K
  b : K
  c : K
  c_lift_0 : K
  c_lift_deltae : K
  c_lift_a : K
  c_lift_q : K
  mcoeff : K
  oswald : K
  alpha_stall : K
  c_drag_q : K
  c_drag_deltae : K
  c_drag_p : K
  c_y_0 : K
  c_y_b : K
  c_y_p : K
  c_y_r : K
  c_y_deltaa : K
  c_y_deltar : K
  c_l_0 : K
  c_l_b : K
  c_l_p : K
  c_l_r : K
  c_l_deltaa : K
  c_l_deltar : K
  c_m_0 : K
  c_m_a : K
  c_m_q : K
  c_m_deltae : K
  c_n_0 : K
  c_n_b : K
  c_n_p : K
  c_n_r : K
  c_n_deltaa : K
  c_n_deltar : K
  CGOffset : Vector3 K

/-- The coefficient set with every entry zero, a base for concrete coefficient sets. -/
def Coefficient.zero : Coefficient K :=
  { s := 0, b := 0, c := 0, c_lift_0 := 0, c_lift_deltae := 0, c_lift_a := 0, c_lift_q := 0,
    mcoeff := 0, oswald := 0, alpha_stall := 0, c_drag_q := 0, c_drag_deltae := 0,
    c_drag_p := 0, c_y_0 := 0, c_y_b := 0, c_y_p := 0, c_y_r := 0, c_y_deltaa := 0,
    c_y_deltar := 0, c_l_0 := 0, c_l_b := 0, c_l_p := 0, c_l_r := 0, c_l_deltaa := 0,
    c_l_deltar := 0, c_m_0 := 0, c_m_a := 0, c_m_q := 0, c_m_deltae := 0, c_n_0 := 0,
    c_n_b := 0, c_n_p := 0, c_n_r := 0, c_n_deltaa := 0, c_n_deltar := 0,
    CGOffset := ⟨0, 0, 0⟩ }

/-- The members of the `Plane` object (its own and the ones inherited from `Aircraft`)
that the source reads or writes. -/
structure Plane (K : Type) where
  coefficient : Coefficient K
  mass : K
  thrust_scale : K
  frame_height : K
  reverse_thrust : Bool
  velocity_bf : Vector3 K
  velocity_ef : Vector3 K
  dcm : Matrix3 K
  gyro : Vector3 K
  airspeed : K
  air_density : K
  angle_of_attack : K
  beta : K
  accel_body : Vector3 K

/-- The actuator input of one step (`struct sitl_input`): pulse widths by channel index. -/
structure sitl_input where
  servos : Nat → Nat

/-- The local variable `sigmoid` of `Plane::liftCoeff`, the stall blend weight. -/
def Plane.sigmoid (M : Libm K) (P : Plane K) (alpha : K) : K :=
  let alpha0 := P.coefficient.alpha_stall
  let m := P.coefficient.mcoeff
  (1 + M.exp (-m * (alpha - alpha0)) + M.exp (m * (alpha + alpha0)))
    / (1 + M.exp (-m * (alpha - alpha0))) / (1 + M.exp (m * (alpha + alpha0)))

/-- The method `Plane::liftCoeff`. -/
def Plane.liftCoeff (M : Libm K) (P : Plane K) (alpha : K) : K :=
  let c_lift_0 := P.coefficient.c_lift_0
  let c_lift_a0 := P.coefficient.c_lift_a
  let sigmoid := P.sigmoid M alpha
  let linear := (1 - sigmoid) * (c_lift_0 + c_lift_a0 * alpha)
  let flatPlate := sigmoid * (2 * M.copysign 1 alpha * (M.sin alpha) ^ 2 * M.cos alpha)
  linear + flatPlate

/-- The method `Plane::dragCoeff`. -/
def Plane.dragCoeff (M : Libm K) (P : Plane K) (alpha : K) : K :=
  let b := P.coefficient.b
  let s := P.coefficient.s
  let c_drag_p := P.coefficient.c_drag_p
  let c_lift_0 := P.coefficient.c_lift_0
  let c_lift_a0 := P.coefficient.c_lift_a
  let oswald := P.coefficient.oswald
  let AR := b ^ 2 / s
  c_drag_p + (c_lift_0 + c_lift_a0 * alpha) ^ 2 / (M.pi * oswald * AR)

/-- Floating-point division as far as it yields a number: with a zero divisor the C
division gives an infinity or NaN, which no element of the field stands for, and the
result is `none`. -/
def checked_div (x y : K) : Option K := if y = 0 then none else some (x / y)

/-- The method `Plane::dragCoeff` with its two divisions checked: the value of
`Plane.dragCoeff` when neither divisor is zero, `none` when the aspect ratio or the
induced drag divides by zero. -/
def Plane.dragCoeff_checked (M : Libm K) (P : Plane K) (alpha : K) : Option K :=
  let b := P.coefficient.b
  let s := P.coefficient.s
  let c_drag_p := P.coefficient.c_drag_p
  let c_lift_0 := P.coefficient.c_lift_0
  let c_lift_a0 := P.coefficient.c_lift_a
  let oswald := P.coefficient.oswald
  (checked_div (b ^ 2) s).bind fun AR =>
    (checked_div ((c_lift_0 + c_lift_a0 * alpha) ^ 2) (M.pi * oswald * AR)).map
      fun induced => c_drag_p + induced

/-! ## Torque and force models -/

/-- The method `Plane::getTorque`. -/
def Plane.getTorque (P : Plane K) (inputAileron inputElevator inputRudder : K)
    (force : Vector3 K) : Vector3 K :=
  let alpha := P.angle_of_attack
  let s := P.coefficient.s
  let c := P.coefficient.c
  let b := P.coefficient.b
  let k := P.coefficient
  let CGOffset := P.coefficient.CGOffset
  let rho := P.air_density
  let airspeed := P.airspeed
  let beta := P.beta
  let p := P.gyro.x
  let q := P.gyro.y
  let r := P.gyro.z
  let qbar := 1 / 2 * rho * airspeed ^ 2 * s
  let lmn : K × K × K :=
    if is_zero airspeed then (0, 0, 0)
    else
      (qbar * b * (k.c_l_0 + k.c_l_b * beta + k.c_l_p * b * p / (2 * airspeed)
          + k.c_l_r * b * r / (2 * airspeed) + k.c_l_deltaa * inputAileron
          + k.c_l_deltar * inputRudder),
       qbar * c * (k.c_m_0 + k.c_m_a * alpha + k.c_m_q * c * q / (2 * airspeed)
          + k.c_m_deltae * inputElevator),
       qbar * b * (k.c_n_0 + k.c_n_b * beta + k.c_n_p * b * p / (2 * airspeed)
          + k.c_n_r * b * r / (2 * airspeed) + k.c_n_deltaa * inputAileron
          + k.c_n_deltar * inputRudder))
  let la := lmn.1 + (CGOffset.y * force.z - CGOffset.z * force.y)
  let ma := lmn.2.1 + (-CGOffset.x * force.z + CGOffset.z * force.x)
  let na := lmn.2.2 + (-CGOffset.y * force.x + CGOffset.x * force.y)
  ⟨la, ma, na⟩

/-- The method `Plane::getForce`. -/
def Plane.getForce (M : Libm K) (P : Plane K) (inputAileron inputElevator inputRudder : K) :
    Vector3 K :=
  let alpha := P.angle_of_attack
  let k := P.coefficient
  let c := P.coefficient.c
  let b := P.coefficient.b
  let s := P.coefficient.s
  let rho := P.air_density
  let airspeed := P.airspeed
  let beta := P.beta
  let c_lift_a := P.liftCoeff M alpha
  let c_drag_a := P.dragCoeff M alpha
  let c_x_a := -c_drag_a * M.cos alpha + c_lift_a * M.sin alpha
  let c_x_q := -k.c_drag_q * M.cos alpha + k.c_lift_q * M.sin alpha
  let c_z_a := -c_drag_a * M.sin alpha - c_lift_a * M.cos alpha
  let c_z_q := -k.c_drag_q * M.sin alpha - k.c_lift_q * M.cos alpha
  let p := P.gyro.x
  let q := P.gyro.y
  let r := P.gyro.z
  let qbar := 1 / 2 * rho * airspeed ^ 2 * s
  if is_zero airspeed then ⟨0, 0, 0⟩
  else
    ⟨qbar * (c_x_a + c_x_q * c * q / (2 * airspeed)
        - k.c_drag_deltae * M.cos alpha * |inputElevator|
        + k.c_lift_deltae * M.sin alpha * inputElevator),
     qbar * (k.c_y_0 + k.c_y_b * beta + k.c_y_p * b * p / (2 * airspeed)
        + k.c_y_r * b * r / (2 * airspeed) + k.c_y_deltaa * inputAileron
        + k.c_y_deltar * inputRudder),
     qbar * (c_z_a + c_z_q * c * q / (2 * airspeed)
        - k.c_drag_deltae * M.sin alpha * |inputElevator|
        - k.c_lift_deltae * M.cos alpha * inputElevator)⟩

/-! ## Step driver -/

/-- Normalisation of a control-surface channel, `(servo - 1500) / 500.0f`. -/
def surface (servo : Nat) : K := (((servo : ℤ) - 1500 : ℤ) : K) / 500

/-- The throttle computed by `Plane::calculate_forces` from channel 3 (`servos[2]`). -/
def Plane.throttle (P : Plane K) (input : sitl_input) : K :=
  if P.reverse_thrust then
    constrain_float ((((input.servos 2 : ℤ) - 1500 : ℤ) : K) / 500) (-1) 1
  else
    constrain_float ((((input.servos 2 : ℤ) - 1000 : ℤ) : K) / 1000) 0 1

/-- The magnitude `Plane::calculate_forces` hands to `add_noise`. -/
def Plane.noise_magnitude (P : Plane K) (input : sitl_input) : K :=
  |P.throttle input * P.thrust_scale| / P.thrust_scale

/-- The method `Plane::calculate_forces`. It returns the object after the call and the
output parameter `rot_accel`; the linear acceleration is written to the member
`accel_body`. The method `add_noise` of `Aircraft` is defined outside the source file and
is a parameter: it receives the noise magnitude and the object. -/
def Plane.calculate_forces (M : Libm K) (add_noise : K → Plane K → Plane K) (P : Plane K)
    (input : sitl_input) : Plane K × Vector3 K :=
  let aileron : K := surface (input.servos 0)
  let elevator : K := surface (input.servos 1)
  let rudder : K := surface (input.servos 3)
  let throttle := P.throttle input
  let thrust := throttle
  let P1 := { P with angle_of_attack := M.atan2 P.velocity_bf.z P.velocity_bf.x }
  let P2 := { P1 with beta := M.atan2 P1.velocity_bf.y P1.velocity_bf.x }
  let force := P2.getForce M aileron elevator rudder
  let rot_accel := P2.getTorque aileron elevator rudder force
  let P3 := { P2 with velocity_bf := P2.dcm.transposed.mulVec P2.velocity_ef }
  let thrust := thrust * P3.thrust_scale
  let P4 := { P3 with accel_body := ⟨thrust / P3.mass, 0, 0⟩ }
  let P5 := { P4 with accel_body := P4.accel_body + force }
  (add_noise (|thrust| / P5.thrust_scale) P5, rot_accel)

/-- The force `Plane::calculate_forces` obtains from `getForce` (its local variable
`force`): the force at the angle of attack and sideslip the call has just computed. -/
def Plane.step_force (M : Libm K) (P : Plane K) (input : sitl_input) : Vector3 K :=
  let P1 := { P with angle_of_attack := M.atan2 P.velocity_bf.z P.velocity_bf.x }
  let P2 := { P1 with beta := M.atan2 P1.velocity_bf.y P1.velocity_bf.x }
  P2.getForce M (surface (input.servos 0)) (surface (input.servos 1)) (surface (input.servos 3))

/-- A noise source that is switched off: `add_noise` leaves the object as it is. -/
def no_noise (_ : K) (P : Plane K) : Plane K := P

/-- A plane at rest with the coefficient set `k`: unit mass and thrust scale, level
attitude, no velocity, no rotation, still air of unit density. -/
def Plane.atRest (k : Coefficient K) : Plane K :=
  { coefficient := k, mass := 1, thrust_scale := 1, frame_height := 1 / 10,
    reverse_thrust := false, velocity_bf := ⟨0, 0, 0⟩, velocity_ef := ⟨0, 0, 0⟩,
    dcm := ⟨⟨1, 0, 0⟩, ⟨0, 1, 0⟩, ⟨0, 0, 1⟩⟩, gyro := ⟨0, 0, 0⟩, airspeed := 0,
    air_density := 1, angle_of_attack := 0, beta := 0, accel_body := ⟨0, 0, 0⟩ }

/-- The drag scenario of the spec, set up on the object `P`: every derivative is zero
except `c_drag_p = 0.05`, the Oswald factor, which the spec lists with the drag
derivatives, included; the wing area is `1`, the angle of attack `0`, the airspeed `10`
and the air density `1.225`. The span, chord, stall parameters and centre-of-gravity
offset, which the scenario leaves open, are those of `P`, as is the rest of the state. -/
def Plane.scenario (P : Plane K) : Plane K :=
  { P with
    coefficient := { (Coefficient.zero : Coefficient K) with
      c_drag_p := 1 / 20, s := 1, b := P.coefficient.b, c := P.coefficient.c,
      mcoeff := P.coefficient.mcoeff, alpha_stall := P.coefficient.alpha_stall,
      CGOffset := P.coefficient.CGOffset },
    angle_of_attack := 0, airspeed := 10, air_density := 49 / 40 }

/-- The drag scenario of the spec with the Oswald factor set to `oswald` instead of
zero. -/
def Plane.scenario_oswald (oswald : K) (P : Plane K) : Plane K :=
  { P.scenario with coefficient := { P.scenario.coefficient with oswald := oswald } }

/-- A plane in a steady flow, for concrete inputs: the plane at rest with the coefficient
set `k`, moved to the given airspeed and angle of attack in air of density `2`, so that a
unit wing area and unit airspeed give a unit dynamic pressure. -/
def Plane.inFlow (k : Coefficient K) (airspeed alpha : K) : Plane K :=
  { Plane.atRest k with airspeed := airspeed, air_density := 2, angle_of_attack := alpha }

/-- The object after `n` successive calls of `Plane::calculate_forces` with the same
actuator input and the noise source switched off; nothing else touches the object between
the calls. -/
def Plane.after_calls (M : Libm K) (input : sitl_input) : Nat → Plane K → Plane K
  | 0, P => P
  | n + 1, P => (Plane.calculate_forces M no_noise (Plane.after_calls M input n P) input).1

/-- A rational stand-in for the C math library, enough to run the model on concrete
inputs: first-order approximations of the functions and `355/113` for `π`. -/
def Libm.rational : Libm ℚ :=
  { exp := fun x => 1 + x, sin := fun x => x, cos := fun _ => 1,
    atan2 := fun y x => if x = 0 then 0 else y / x, pi := 355 / 113, negZero := false }

end Defs

/-! ## Theorems -/

section Generic

variable {K : Type} [LinearOrderedField K]

theorem FLT_EPSILON_pos : (0 : K) < FLT_EPSILON := by
  unfold FLT_EPSILON; positivity

theorem is_zero_zero : is_zero (0 : K) = true := by
  simp [is_zero, FLT_EPSILON_pos]

/-- C1: at airspeed exactly zero `getForce` returns the zero vector, whatever the
coefficient set, the angle of attack, the sideslip, the angular rates, the air density
and the control inputs are. -/
theorem getForce_airspeed_zero (M : Libm K) (P : Plane K) (a e r : K) :
    Plane.getForce M { P with airspeed := 0 } a e r = ⟨0, 0, 0⟩ := by
  simp [Plane.getForce, is_zero_zero]

/-- C2: at airspeed exactly zero `getTorque` has no aerodynamic part: it returns the
cross term of the centre-of-gravity offset with the passed force, and the zero vector
when the passed force is zero. -/
theorem getTorque_airspeed_zero (P : Plane K) (a e r : K) (F : Vector3 K) :
    Plane.getTorque { P with airspeed := 0 } a e r F
        = ⟨P.coefficient.CGOffset.y * F.z - P.coefficient.CGOffset.z * F.y,
           -P.coefficient.CGOffset.x * F.z + P.coefficient.CGOffset.z * F.x,
           -P.coefficient.CGOffset.y * F.x + P.coefficient.CGOffset.x * F.y⟩
      ∧ Plane.getTorque { P with airspeed := 0 } a e r ⟨0, 0, 0⟩ = ⟨0, 0, 0⟩ := by
  constructor <;> simp [Plane.getTorque, is_zero_zero]

/-- C3: for every state (zero or non-zero airspeed), every control input and every force
`F`, `getTorque a e r F - getTorque a e r 0` is the cross term
`(oy·Fz − oz·Fy, −ox·Fz + oz·Fx, −oy·Fx + ox·Fy)` of the centre-of-gravity offset. -/
theorem getTorque_sub_getTorque_zero (P : Plane K) (a e r : K) (F : Vector3 K) :
    Plane.getTorque P a e r F - Plane.getTorque P a e r ⟨0, 0, 0⟩
      = ⟨P.coefficient.CGOffset.y * F.z - P.coefficient.CGOffset.z * F.y,
         -P.coefficient.CGOffset.x * F.z + P.coefficient.CGOffset.z * F.x,
         -P.coefficient.CGOffset.y * F.x + P.coefficient.CGOffset.x * F.y⟩ := by
  show Vector3.mk _ _ _ = _
  simp only [Plane.getTorque]
  congr 1 <;> ring

/-- The clamp of `constrain_float` written with `max` and `min`. -/
theorem constrain_float_eq (amt low high : K) (h : low ≤ high) :
    constrain_float amt low high = max low (min high amt) := by
  unfold constrain_float
  split_ifs with h1 h2
  · rw [min_eq_right (le_trans h1.le h), max_eq_left h1.le]
  · rw [min_eq_left h2.le, max_eq_right h]
  · rw [min_eq_right (not_lt.mp h2), max_eq_right (not_lt.mp h1)]

/-- C4: the throttle of `calculate_forces` is `clamp((s − 1500)/500, −1, 1)` in
reverse-thrust mode and `clamp((s − 1000)/1000, 0, 1)` in forward mode, `s` the signal of
channel 3; it lies in `[−1, 1]`, respectively `[0, 1]`; the six signals of the spec map to
`0, 1, −1` (reverse `1500, 2000, 1000`) and `0, 1, 0` (forward `1000, 2000, 500`); and it is
the throttle the call turns into the thrust acceleration of `accel_body`. -/
theorem throttle_mapping (M : Libm K) (P : Plane K) (input : sitl_input) :
    (Plane.throttle { P with reverse_thrust := true } input
        = max (-1) (min 1 (((input.servos 2 : K) - 1500) / 500))
      ∧ -1 ≤ Plane.throttle { P with reverse_thrust := true } input
      ∧ Plane.throttle { P with reverse_thrust := true } input ≤ 1)
    ∧ (Plane.throttle { P with reverse_thrust := false } input
        = max 0 (min 1 (((input.servos 2 : K) - 1000) / 1000))
      ∧ 0 ≤ Plane.throttle { P with reverse_thrust := false } input
      ∧ Plane.throttle { P with reverse_thrust := false } input ≤ 1)
    ∧ (Plane.throttle { P with reverse_thrust := true } ⟨fun _ => 1500⟩ = 0
      ∧ Plane.throttle { P with reverse_thrust := true } ⟨fun _ => 2000⟩ = 1
      ∧ Plane.throttle { P with reverse_thrust := true } ⟨fun _ => 1000⟩ = -1
      ∧ Plane.throttle { P with reverse_thrust := false } ⟨fun _ => 1000⟩ = 0
      ∧ Plane.throttle { P with reverse_thrust := false } ⟨fun _ => 2000⟩ = 1
      ∧ Plane.throttle { P with reverse_thrust := false } ⟨fun _ => 500⟩ = 0)
    ∧ (Plane.calculate_forces M no_noise P input).1.accel_body
        = ⟨P.throttle input * P.thrust_scale / P.mass, 0, 0⟩ + P.step_force M input := by
  have hr : Plane.throttle { P with reverse_thrust := true } input
        = max (-1) (min 1 (((input.servos 2 : K) - 1500) / 500)) := by
    simp only [Plane.throttle, if_true]
    rw [constrain_float_eq _ _ _ (by norm_num)]
    push_cast
    rfl
  have hf : Plane.throttle { P with reverse_thrust := false } input
        = max 0 (min 1 (((input.servos 2 : K) - 1000) / 1000)) := by
    simp only [Plane.throttle, Bool.false_eq_true, if_false]
    rw [constrain_float_eq _ _ _ (by norm_num)]
    push_cast
    rfl
  refine ⟨⟨hr, ?_, ?_⟩, ⟨hf, ?_, ?_⟩, ⟨?_, ?_, ?_, ?_, ?_, ?_⟩, rfl⟩
  · rw [hr]; exact le_max_left _ _
  · rw [hr]; exact max_le (by norm_num) (min_le_left _ _)
  · rw [hf]; exact le_max_left _ _
  · rw [hf]; exact max_le (by norm_num) (min_le_left _ _)
  all_goals norm_num [Plane.throttle, constrain_float]

/-- C5 (as amended): for every angle of attack, when `π` is positive and the product
`oswald · AR` of the Oswald factor and the aspect ratio `AR = b² / s` is positive,
`dragCoeff alpha` is at least the parasitic drag constant `c_drag_p`. -/
theorem dragCoeff_ge_parasitic (M : Libm K) (P : Plane K) (alpha : K) (hpi : 0 < M.pi)
    (hprod : 0 < P.coefficient.oswald * (P.coefficient.b ^ 2 / P.coefficient.s)) :
    P.coefficient.c_drag_p ≤ P.dragCoeff M alpha := by
  have hden : 0 < M.pi * P.coefficient.oswald * (P.coefficient.b ^ 2 / P.coefficient.s) := by
    rw [mul_assoc]; exact mul_pos hpi hprod
  have hnum : 0 ≤ (P.coefficient.c_lift_0 + P.coefficient.c_lift_a * alpha) ^ 2 := sq_nonneg _
  simp only [Plane.dragCoeff]
  exact le_add_of_nonneg_right (div_nonneg hnum hden.le)

/-- Witness of `dragCoeff_ge_parasitic`: a wing of span `2`, area `1/2` and Oswald factor
`9/10` at an angle of attack of `1/10`. -/
theorem dragCoeff_ge_parasitic_witness :
    (1 / 10 : ℚ) ≤ Plane.dragCoeff Libm.rational
      (Plane.atRest { (Coefficient.zero : Coefficient ℚ) with
        s := 1 / 2, b := 2, oswald := 9 / 10, c_drag_p := 1 / 10, c_lift_0 := 1 / 5,
        c_lift_a := 5 }) (1 / 10) :=
  dragCoeff_ge_parasitic Libm.rational
    (Plane.atRest { (Coefficient.zero : Coefficient ℚ) with
      s := 1 / 2, b := 2, oswald := 9 / 10, c_drag_p := 1 / 10, c_lift_0 := 1 / 5,
      c_lift_a := 5 }) (1 / 10)
    (by norm_num [Libm.rational]) (by norm_num [Plane.atRest, Coefficient.zero])

/-- The normalised control-surface value as a quotient of field elements. -/
theorem surface_eq (s : Nat) : (surface s : K) = ((s : K) - 1500) / 500 := by
  unfold surface; push_cast; rfl

/-- The throttle of either thrust mode has absolute value at most one. -/
theorem abs_throttle_le_one (P : Plane K) (input : sitl_input) : |P.throttle input| ≤ 1 := by
  have hc : ∀ (x lo : K), -1 ≤ lo → lo ≤ 1 → |constrain_float x lo 1| ≤ 1 := by
    intro x lo h1 h2
    rw [constrain_float_eq x lo 1 h2, abs_le]
    exact ⟨le_trans h1 (le_max_left _ _), max_le h2 (min_le_left _ _)⟩
  unfold Plane.throttle
  split_ifs
  · exact hc _ _ le_rfl (by norm_num)
  · exact hc _ _ (by norm_num) (by norm_num)

/-- C11: `calculate_forces` computes aileron, elevator and rudder as
`(signal − 1500)/500` from channels 1, 2 and 4 (`servos[0]`, `servos[1]`, `servos[3]`)
without clamping: the value lies in `[−1, 1]` exactly when the signal lies in
`[1000, 2000]`, the signal `2500` gives `2`, and the values are handed as they are to
`getForce` and `getTorque`. -/
theorem surface_unclamped (M : Libm K) (add_noise : K → Plane K → Plane K) (P : Plane K)
    (input : sitl_input) (s : Nat) :
    (surface s : K) = ((s : K) - 1500) / 500
      ∧ ((-1 ≤ (surface s : K) ∧ (surface s : K) ≤ 1) ↔ (1000 ≤ s ∧ s ≤ 2000))
      ∧ (surface 2500 : K) = 2
      ∧ P.step_force M input
          = Plane.getForce M
              { P with angle_of_attack := M.atan2 P.velocity_bf.z P.velocity_bf.x,
                       beta := M.atan2 P.velocity_bf.y P.velocity_bf.x }
              (surface (input.servos 0)) (surface (input.servos 1)) (surface (input.servos 3))
      ∧ (P.calculate_forces M add_noise input).2
          = Plane.getTorque
              { P with angle_of_attack := M.atan2 P.velocity_bf.z P.velocity_bf.x,
                       beta := M.atan2 P.velocity_bf.y P.velocity_bf.x }
              (surface (input.servos 0)) (surface (input.servos 1)) (surface (input.servos 3))
              (P.step_force M input) := by
  refine ⟨surface_eq s, ?_, ?_, rfl, rfl⟩
  · rw [surface_eq s]
    have h500 : (0 : K) < 500 := by norm_num
    rw [le_div_iff₀ h500, div_le_iff₀ h500]
    constructor
    · rintro ⟨h1, h2⟩
      have h1' : ((1000 : Nat) : K) ≤ (s : K) := by push_cast; linarith
      have h2' : (s : K) ≤ ((2000 : Nat) : K) := by push_cast; linarith
      exact ⟨Nat.cast_le.mp h1', Nat.cast_le.mp h2'⟩
    · rintro ⟨h1, h2⟩
      have h1' : ((1000 : Nat) : K) ≤ (s : K) := Nat.cast_le.mpr h1
      have h2' : (s : K) ≤ ((2000 : Nat) : K) := Nat.cast_le.mpr h2
      push_cast at h1' h2'
      constructor <;> linarith
  · rw [surface_eq]; norm_num

/-- C12: with a positive thrust scale, in either thrust mode, the magnitude
`|thrust| / thrust_scale` that `calculate_forces` passes to `add_noise` is the absolute
value of the normalised throttle and lies in `[0, 1]`. -/
theorem noise_magnitude_eq_abs_throttle (M : Libm K) (P : Plane K) (input : sitl_input)
    (hscale : 0 < P.thrust_scale) :
    (∃ Q : Plane K, ∀ add_noise : K → Plane K → Plane K,
        (P.calculate_forces M add_noise input).1 = add_noise (P.noise_magnitude input) Q)
      ∧ P.noise_magnitude input = |P.throttle input|
      ∧ 0 ≤ P.noise_magnitude input ∧ P.noise_magnitude input ≤ 1 := by
  have heq : P.noise_magnitude input = |P.throttle input| := by
    unfold Plane.noise_magnitude
    rw [abs_mul, abs_of_pos hscale, mul_div_assoc, div_self hscale.ne', mul_one]
  refine ⟨⟨_, fun add_noise => rfl⟩, heq, ?_, ?_⟩
  · rw [heq]; exact abs_nonneg _
  · rw [heq]; exact abs_throttle_le_one P input

/-- Witness of `noise_magnitude_eq_abs_throttle`: a reverse-thrust plane of thrust scale
`3` with the throttle signal `1250`. -/
theorem noise_magnitude_eq_abs_throttle_witness :
    (∃ Q : Plane ℚ, ∀ add_noise : ℚ → Plane ℚ → Plane ℚ,
        (Plane.calculate_forces Libm.rational add_noise
            { Plane.atRest (Coefficient.zero : Coefficient ℚ) with
              thrust_scale := 3, reverse_thrust := true } ⟨fun _ => 1250⟩).1
          = add_noise
              (Plane.noise_magnitude
                { Plane.atRest (Coefficient.zero : Coefficient ℚ) with
                  thrust_scale := 3, reverse_thrust := true } ⟨fun _ => 1250⟩) Q)
      ∧ Plane.noise_magnitude
            { Plane.atRest (Coefficient.zero : Coefficient ℚ) with
              thrust_scale := 3, reverse_thrust := true } ⟨fun _ => 1250⟩
          = |Plane.throttle
            { Plane.atRest (Coefficient.zero : Coefficient ℚ) with
              thrust_scale := 3, reverse_thrust := true } ⟨fun _ => 1250⟩|
      ∧ 0 ≤ Plane.noise_magnitude
            { Plane.atRest (Coefficient.zero : Coefficient ℚ) with
              thrust_scale := 3, reverse_thrust := true } ⟨fun _ => 1250⟩
      ∧ Plane.noise_magnitude
            { Plane.atRest (Coefficient.zero : Coefficient ℚ) with
              thrust_scale := 3, reverse_thrust := true } ⟨fun _ => 1250⟩ ≤ 1 :=
  noise_magnitude_eq_abs_throttle Libm.rational
    { Plane.atRest (Coefficient.zero : Coefficient ℚ) with
      thrust_scale := 3, reverse_thrust := true } ⟨fun _ => 1250⟩ (by norm_num)

/-- C13: in one call of `calculate_forces` the force, `rot_accel` and `accel_body` are
the same whatever the earth-frame velocity and the orientation matrix are: the angle of
attack and the sideslip come from the body-frame velocity held before the call. After
the call (noise off) `angle_of_attack` and `beta` are the `atan2` of that old velocity and
`velocity_bf` is `transpose(dcm) · velocity_ef`, which the next call turns into its angle
of attack. -/
theorem one_tick_lag (M : Libm K) (add_noise : K → Plane K → Plane K) (P : Plane K)
    (input : sitl_input) (v : Vector3 K) (d : Matrix3 K) :
    Plane.step_force M { P with velocity_ef := v, dcm := d } input = P.step_force M input
      ∧ (Plane.calculate_forces M add_noise { P with velocity_ef := v, dcm := d } input).2
          = (P.calculate_forces M add_noise input).2
      ∧ (Plane.calculate_forces M no_noise { P with velocity_ef := v, dcm := d }
            input).1.accel_body
          = (P.calculate_forces M no_noise input).1.accel_body
      ∧ (P.calculate_forces M no_noise input).1.angle_of_attack
          = M.atan2 P.velocity_bf.z P.velocity_bf.x
      ∧ (P.calculate_forces M no_noise input).1.beta
          = M.atan2 P.velocity_bf.y P.velocity_bf.x
      ∧ (P.calculate_forces M no_noise input).1.velocity_bf
          = P.dcm.transposed.mulVec P.velocity_ef
      ∧ (Plane.calculate_forces M no_noise (P.calculate_forces M no_noise input).1
            input).1.angle_of_attack
          = M.atan2 (P.dcm.transposed.mulVec P.velocity_ef).z
              (P.dcm.transposed.mulVec P.velocity_ef).x :=
  ⟨rfl, rfl, rfl, rfl, rfl, rfl, rfl⟩

/-- The body-z force in the non-zero branch, as the code computes it. -/
theorem getForce_z_of_not_is_zero (M : Libm K) (P : Plane K) (a e r : K)
    (hz : is_zero P.airspeed = false) :
    (P.getForce M a e r).z
      = 1 / 2 * P.air_density * P.airspeed ^ 2 * P.coefficient.s
        * ((-P.dragCoeff M P.angle_of_attack * M.sin P.angle_of_attack
              - P.liftCoeff M P.angle_of_attack * M.cos P.angle_of_attack)
          + (-P.coefficient.c_drag_q * M.sin P.angle_of_attack
              - P.coefficient.c_lift_q * M.cos P.angle_of_attack)
            * P.coefficient.c * P.gyro.y / (2 * P.airspeed)
          - P.coefficient.c_drag_deltae * M.sin P.angle_of_attack * |e|
          - P.coefficient.c_lift_deltae * M.cos P.angle_of_attack * e) := by
  simp only [Plane.getForce, hz, Bool.false_eq_true, if_false]

/-- An airspeed of magnitude at least `FLT_EPSILON` fails the zero test. -/
theorem is_zero_eq_false (x : K) (h : FLT_EPSILON ≤ |x|) : is_zero x = false := by
  simp [is_zero, not_lt.mpr h]

/-- C14 (as amended): for an airspeed that the zero test `is_zero` does not take for
zero, the body-x force of `getForce` is
`qbar·[c_x_a + c_x_q·c·q/(2·airspeed) − c_drag_deltae·cos(alpha)·|e| + c_lift_deltae·sin(alpha)·e]`
and the body-z force is
`qbar·[c_z_a + c_z_q·c·q/(2·airspeed) − c_drag_deltae·sin(alpha)·|e| − c_lift_deltae·cos(alpha)·e]`
with `c_z_a = −drag·sin(alpha) − lift·cos(alpha)`: sine and cosine are swapped, the
elevator lift term changes sign and the elevator drag term keeps its minus sign. -/
theorem getForce_body_z (M : Libm K) (P : Plane K) (a e r : K)
    (hz : is_zero P.airspeed = false) :
    (P.getForce M a e r).x
        = 1 / 2 * P.air_density * P.airspeed ^ 2 * P.coefficient.s
          * ((-P.dragCoeff M P.angle_of_attack * M.cos P.angle_of_attack
                + P.liftCoeff M P.angle_of_attack * M.sin P.angle_of_attack)
            + (-P.coefficient.c_drag_q * M.cos P.angle_of_attack
                + P.coefficient.c_lift_q * M.sin P.angle_of_attack)
              * P.coefficient.c * P.gyro.y / (2 * P.airspeed)
            - P.coefficient.c_drag_deltae * M.cos P.angle_of_attack * |e|
            + P.coefficient.c_lift_deltae * M.sin P.angle_of_attack * e)
      ∧ (P.getForce M a e r).z
        = 1 / 2 * P.air_density * P.airspeed ^ 2 * P.coefficient.s
          * ((-P.dragCoeff M P.angle_of_attack * M.sin P.angle_of_attack
                - P.liftCoeff M P.angle_of_attack * M.cos P.angle_of_attack)
            + (-P.coefficient.c_drag_q * M.sin P.angle_of_attack
                - P.coefficient.c_lift_q * M.cos P.angle_of_attack)
              * P.coefficient.c * P.gyro.y / (2 * P.airspeed)
            - P.coefficient.c_drag_deltae * M.sin P.angle_of_attack * |e|
            - P.coefficient.c_lift_deltae * M.cos P.angle_of_attack * e) := by
  simp only [Plane.getForce, hz, Bool.false_eq_true, if_false, and_self]

/-- Witness of `getForce_body_z`: unit airspeed and dynamic pressure, angle of attack
`1/2`, elevator drag derivative `1`, elevator lift derivative `3`, elevator at `−1`; with
the rational stand-in (`sin x = x`, `cos x = 1`, lift coefficient `3/8`) the body-x force
is `−37/16` and the body-z force `17/8`. -/
theorem getForce_body_z_witness :
    (Plane.getForce Libm.rational
        (Plane.inFlow { (Coefficient.zero : Coefficient ℚ) with
          s := 1, b := 1, oswald := 1, c_drag_deltae := 1, c_lift_deltae := 3 } 1 (1 / 2))
        0 (-1) 0).x = -37 / 16
      ∧ (Plane.getForce Libm.rational
        (Plane.inFlow { (Coefficient.zero : Coefficient ℚ) with
          s := 1, b := 1, oswald := 1, c_drag_deltae := 1, c_lift_deltae := 3 } 1 (1 / 2))
        0 (-1) 0).z = 17 / 8 := by
  have h := getForce_body_z Libm.rational
    (Plane.inFlow { (Coefficient.zero : Coefficient ℚ) with
      s := 1, b := 1, oswald := 1, c_drag_deltae := 1, c_lift_deltae := 3 } 1 (1 / 2))
    0 (-1) 0 (is_zero_eq_false _ (by norm_num [FLT_EPSILON, Plane.inFlow, Plane.atRest]))
  refine ⟨h.1.trans ?_, h.2.trans ?_⟩ <;>
    norm_num [Plane.inFlow, Plane.atRest, Coefficient.zero, Libm.rational, Plane.dragCoeff,
      Plane.liftCoeff, Plane.sigmoid, Libm.copysign]

/-- C18: with the passed force held fixed, the pitch moment of `getTorque` is the same
whatever the aileron, the rudder, the sideslip, the roll rate and the yaw rate are, and the
roll and yaw moments are the same whatever the elevator, the angle of attack and the pitch
rate are; this holds in the non-zero-airspeed branch and in the zero branch alike. -/
theorem getTorque_axes_decoupled (P : Plane K) (a e r a' e' r' : K)
    (beta' alpha' p' q' yaw' : K) (F : Vector3 K) :
    (Plane.getTorque { P with beta := beta', gyro := ⟨p', P.gyro.y, yaw'⟩ } a' e r' F).y
        = (P.getTorque a e r F).y
      ∧ (Plane.getTorque
            { P with angle_of_attack := alpha', gyro := ⟨P.gyro.x, q', P.gyro.z⟩ } a e' r F).x
          = (P.getTorque a e r F).x
      ∧ (Plane.getTorque
            { P with angle_of_attack := alpha', gyro := ⟨P.gyro.x, q', P.gyro.z⟩ } a e' r F).z
          = (P.getTorque a e r F).z := by
  simp only [Plane.getTorque]
  cases is_zero P.airspeed <;> simp

/-- A call of `calculate_forces` with the noise off that follows such a call does what a
call on the original object with a refreshed `velocity_bf` does. -/
theorem calculate_forces_after_call (M : Libm K) (P : Plane K) (input : sitl_input) :
    Plane.calculate_forces M no_noise (Plane.calculate_forces M no_noise P input).1 input
      = Plane.calculate_forces M no_noise
          { P with velocity_bf := P.dcm.transposed.mulVec P.velocity_ef } input :=
  rfl

/-- On an object whose `velocity_bf` is already `transpose(dcm) · velocity_ef`, a second
call with the noise off repeats the first. -/
theorem calculate_forces_fresh (M : Libm K) (Q : Plane K) (input : sitl_input)
    (h : Q.velocity_bf = Q.dcm.transposed.mulVec Q.velocity_ef) :
    Plane.calculate_forces M no_noise (Plane.calculate_forces M no_noise Q input).1 input
      = Plane.calculate_forces M no_noise Q input := by
  rw [calculate_forces_after_call, ← h]

/-- The call `n + 1` acts on the object the first `n` calls leave. -/
theorem after_calls_succ (M : Libm K) (input : sitl_input) (n : Nat) (P : Plane K) :
    Plane.after_calls M input (n + 1) P
      = (Plane.calculate_forces M no_noise (Plane.after_calls M input n P) input).1 :=
  rfl

/-- After one call with the noise off, `velocity_bf` is `transpose(dcm) · velocity_ef`. -/
theorem after_calls_one_fresh (M : Libm K) (input : sitl_input) (P : Plane K) :
    (Plane.after_calls M input 1 P).velocity_bf
      = (Plane.after_calls M input 1 P).dcm.transposed.mulVec
          (Plane.after_calls M input 1 P).velocity_ef :=
  rfl

/-- C20: with the noise off, the same actuator input and nothing else touching the
object, the calls of `calculate_forces` settle after one call: call `n + 2` returns the
same `rot_accel` and leaves the same object (`accel_body`, `velocity_bf`,
`angle_of_attack`, `beta` and all other members) as call `2`; and call `2` is the first
call run on the object with `velocity_bf` refreshed to `transpose(dcm) · velocity_ef`, so
the first call differs from the later ones only through the `velocity_bf` it started
with. -/
theorem calls_settle (M : Libm K) (P : Plane K) (input : sitl_input) (n : Nat) :
    Plane.calculate_forces M no_noise (Plane.after_calls M input (n + 1) P) input
        = Plane.calculate_forces M no_noise (Plane.after_calls M input 1 P) input
      ∧ Plane.after_calls M input (n + 2) P = Plane.after_calls M input 2 P
      ∧ Plane.calculate_forces M no_noise (Plane.after_calls M input 1 P) input
          = Plane.calculate_forces M no_noise
              { P with velocity_bf := P.dcm.transposed.mulVec P.velocity_ef } input := by
  have hcall : ∀ k : Nat,
      Plane.calculate_forces M no_noise (Plane.after_calls M input (k + 1) P) input
        = Plane.calculate_forces M no_noise (Plane.after_calls M input 1 P) input := by
    intro k
    induction k with
    | zero => rfl
    | succ k ih =>
      have e2 := congrArg Prod.fst ih
      calc Plane.calculate_forces M no_noise (Plane.after_calls M input (k + 1 + 1) P) input
          = Plane.calculate_forces M no_noise
              (Plane.calculate_forces M no_noise (Plane.after_calls M input (k + 1) P)
                input).1 input := by rw [after_calls_succ M input (k + 1) P]
        _ = Plane.calculate_forces M no_noise
              (Plane.calculate_forces M no_noise (Plane.after_calls M input 1 P) input).1
              input := congrArg (fun Q => Plane.calculate_forces M no_noise Q input) e2
        _ = Plane.calculate_forces M no_noise (Plane.after_calls M input 1 P) input :=
            calculate_forces_fresh M _ input (after_calls_one_fresh M input P)
  refine ⟨hcall n, ?_, ?_⟩
  · rw [after_calls_succ M input (n + 1) P, after_calls_succ M input 1 P]
    exact congrArg Prod.fst (hcall n)
  · exact calculate_forces_after_call M P input

end Generic

section RealModel

/-- C5 (counterexample): with the real `π`, a negative Oswald factor (`oswald = −1`,
`b = s = 1`, `c_lift_0 = 1`, `c_drag_p = 0`) makes `dragCoeff 0 = −1/π`, which is below
the parasitic drag constant. -/
theorem dragCoeff_lt_parasitic :
    Plane.dragCoeff ⟨Real.exp, Real.sin, Real.cos, fun y x => Complex.arg ⟨x, y⟩, Real.pi, false⟩
        (Plane.atRest { (Coefficient.zero : Coefficient ℝ) with
          s := 1, b := 1, oswald := -1, c_lift_0 := 1 }) 0
      < (Plane.atRest { (Coefficient.zero : Coefficient ℝ) with
          s := 1, b := 1, oswald := -1, c_lift_0 := 1 }).coefficient.c_drag_p := by
  have h : (0 : ℝ) < Real.pi := Real.pi_pos
  simp only [Plane.dragCoeff, Plane.atRest, Coefficient.zero]
  norm_num
  exact h

/-- The flat-plate sign factor times `sin²`: `copysign 1 alpha · sin² alpha` is
`sin² alpha` for `alpha ≥ 0` and `−sin² alpha` for `alpha < 0`, whichever sign bit a zero
`alpha` carries. -/
theorem copysign_mul_sin_sq (at2 : ℝ → ℝ → ℝ) (nz : Bool) (alpha : ℝ) :
    Libm.copysign ⟨Real.exp, Real.sin, Real.cos, at2, Real.pi, nz⟩ 1 alpha * Real.sin alpha ^ 2
      = if 0 ≤ alpha then Real.sin alpha ^ 2 else -(Real.sin alpha ^ 2) := by
  rcases lt_trichotomy alpha 0 with h | h | h
  · simp [Libm.copysign, h, not_le.mpr h]
  · subst h; simp [Libm.copysign]
  · simp [Libm.copysign, h.le, not_lt.mpr h.le, h.ne']

/-- With the real exponential, the blend weight computed by the code is the quotient of
the spec, and both of its denominators are positive. -/
theorem sigmoid_eq (at2 : ℝ → ℝ → ℝ) (nz : Bool) (P : Plane ℝ) (alpha : ℝ) :
    Plane.sigmoid ⟨Real.exp, Real.sin, Real.cos, at2, Real.pi, nz⟩ P alpha
      = (1 + Real.exp (-(P.coefficient.mcoeff * (alpha - P.coefficient.alpha_stall)))
            + Real.exp (P.coefficient.mcoeff * (alpha + P.coefficient.alpha_stall)))
        / ((1 + Real.exp (-(P.coefficient.mcoeff * (alpha - P.coefficient.alpha_stall))))
            * (1 + Real.exp (P.coefficient.mcoeff * (alpha + P.coefficient.alpha_stall)))) := by
  simp only [Plane.sigmoid, div_div, neg_mul]

/-- C6: for every real `alpha`, `liftCoeff alpha` is
`(1 − σ)·(c_lift_0 + c_lift_a·alpha) + σ·2·sign(alpha)·sin²(alpha)·cos(alpha)` with
`σ = (1 + e^{−M(alpha−alpha0)} + e^{M(alpha+alpha0)}) /
[(1 + e^{−M(alpha−alpha0)})·(1 + e^{M(alpha+alpha0)})]` and `sign` the mathematical sign
function (`sign 0 = 0`), whichever sign `copysign` gives at zero. -/
theorem liftCoeff_eq_blend (at2 : ℝ → ℝ → ℝ) (nz : Bool) (P : Plane ℝ) (alpha : ℝ) :
    Plane.liftCoeff ⟨Real.exp, Real.sin, Real.cos, at2, Real.pi, nz⟩ P alpha
      = (1 - (1 + Real.exp (-(P.coefficient.mcoeff * (alpha - P.coefficient.alpha_stall)))
                + Real.exp (P.coefficient.mcoeff * (alpha + P.coefficient.alpha_stall)))
            / ((1 + Real.exp (-(P.coefficient.mcoeff * (alpha - P.coefficient.alpha_stall))))
                * (1 + Real.exp (P.coefficient.mcoeff * (alpha + P.coefficient.alpha_stall)))))
          * (P.coefficient.c_lift_0 + P.coefficient.c_lift_a * alpha)
        + (1 + Real.exp (-(P.coefficient.mcoeff * (alpha - P.coefficient.alpha_stall)))
                + Real.exp (P.coefficient.mcoeff * (alpha + P.coefficient.alpha_stall)))
            / ((1 + Real.exp (-(P.coefficient.mcoeff * (alpha - P.coefficient.alpha_stall))))
                * (1 + Real.exp (P.coefficient.mcoeff * (alpha + P.coefficient.alpha_stall))))
          * 2 * Real.sign alpha * Real.sin alpha ^ 2 * Real.cos alpha := by
  have hs := sigmoid_eq at2 nz P alpha
  have hc := copysign_mul_sin_sq at2 nz alpha
  have hsign : Real.sign alpha * Real.sin alpha ^ 2
      = if 0 ≤ alpha then Real.sin alpha ^ 2 else -(Real.sin alpha ^ 2) := by
    rcases lt_trichotomy alpha 0 with h | h | h
    · simp [Real.sign_of_neg h, not_le.mpr h]
    · subst h; simp
    · simp [Real.sign_of_pos h, h.le]
  simp only [Plane.liftCoeff]
  rw [hs]
  simp only at hc
  have e1 : ∀ σ : ℝ, σ * (2 * Libm.copysign ⟨Real.exp, Real.sin, Real.cos, at2, Real.pi, nz⟩ 1 alpha
        * Real.sin alpha ^ 2 * Real.cos alpha)
      = σ * 2 * (Libm.copysign ⟨Real.exp, Real.sin, Real.cos, at2, Real.pi, nz⟩ 1 alpha
        * Real.sin alpha ^ 2) * Real.cos alpha := fun σ => by ring
  have e2 : ∀ σ : ℝ, σ * 2 * Real.sign alpha * Real.sin alpha ^ 2 * Real.cos alpha
      = σ * 2 * (Real.sign alpha * Real.sin alpha ^ 2) * Real.cos alpha := fun σ => by ring
  rw [e1, e2, hc, hsign]

/-- C7: with the real `exp`, `sin` and `cos`, `liftCoeff` is a continuous function of the
angle of attack on the whole real line, zero included, for every coefficient set and
whichever sign `copysign` gives at zero. -/
theorem liftCoeff_continuous (at2 : ℝ → ℝ → ℝ) (nz : Bool) (P : Plane ℝ) :
    Continuous (fun alpha : ℝ =>
      Plane.liftCoeff ⟨Real.exp, Real.sin, Real.cos, at2, Real.pi, nz⟩ P alpha) := by
  have hflat : Continuous (fun alpha : ℝ =>
      if 0 ≤ alpha then Real.sin alpha ^ 2 else -(Real.sin alpha ^ 2)) := by
    have h1 : Continuous (fun alpha : ℝ => Real.sin alpha ^ 2) :=
      (Real.continuous_sin).pow 2
    refine Continuous.if_le h1 h1.neg continuous_const continuous_id ?_
    intro x hx
    have hx0 : x = 0 := hx.symm
    subst hx0
    simp
  have hsig : Continuous (fun alpha : ℝ =>
      Plane.sigmoid ⟨Real.exp, Real.sin, Real.cos, at2, Real.pi, nz⟩ P alpha) := by
    have he1 : Continuous (fun alpha : ℝ =>
        Real.exp (-(P.coefficient.mcoeff * (alpha - P.coefficient.alpha_stall)))) :=
      Real.continuous_exp.comp
        ((continuous_const.mul (continuous_id.sub continuous_const)).neg)
    have he2 : Continuous (fun alpha : ℝ =>
        Real.exp (P.coefficient.mcoeff * (alpha + P.coefficient.alpha_stall))) :=
      Real.continuous_exp.comp (continuous_const.mul (continuous_id.add continuous_const))
    have hfun : (fun alpha : ℝ =>
        Plane.sigmoid ⟨Real.exp, Real.sin, Real.cos, at2, Real.pi, nz⟩ P alpha)
        = fun alpha : ℝ =>
          (1 + Real.exp (-(P.coefficient.mcoeff * (alpha - P.coefficient.alpha_stall)))
            + Real.exp (P.coefficient.mcoeff * (alpha + P.coefficient.alpha_stall)))
          / ((1 + Real.exp (-(P.coefficient.mcoeff * (alpha - P.coefficient.alpha_stall))))
            * (1 + Real.exp (P.coefficient.mcoeff * (alpha + P.coefficient.alpha_stall)))) :=
      funext (sigmoid_eq at2 nz P)
    rw [hfun]
    refine ((continuous_const.add he1).add he2).div
      ((continuous_const.add he1).mul (continuous_const.add he2)) ?_
    intro x
    have p1 := Real.exp_pos (-(P.coefficient.mcoeff * (x - P.coefficient.alpha_stall)))
    have p2 := Real.exp_pos (P.coefficient.mcoeff * (x + P.coefficient.alpha_stall))
    positivity
  have hfun : (fun alpha : ℝ =>
      Plane.liftCoeff ⟨Real.exp, Real.sin, Real.cos, at2, Real.pi, nz⟩ P alpha)
      = fun alpha : ℝ =>
        (1 - Plane.sigmoid ⟨Real.exp, Real.sin, Real.cos, at2, Real.pi, nz⟩ P alpha)
            * (P.coefficient.c_lift_0 + P.coefficient.c_lift_a * alpha)
          + Plane.sigmoid ⟨Real.exp, Real.sin, Real.cos, at2, Real.pi, nz⟩ P alpha
            * (2 * (if 0 ≤ alpha then Real.sin alpha ^ 2 else -(Real.sin alpha ^ 2))
                * Real.cos alpha) := by
    funext alpha
    have hc := copysign_mul_sin_sq at2 nz alpha
    simp only at hc
    simp only [Plane.liftCoeff]
    rw [← hc]
    ring
  rw [hfun]
  exact ((continuous_const.sub hsig).mul
      (continuous_const.add (continuous_const.mul continuous_id))).add
    (hsig.mul ((continuous_const.mul hflat).mul Real.continuous_cos))

/-- Where the checked drag coefficient is a number, it is the drag coefficient. -/
theorem dragCoeff_of_checked (M : Libm ℝ) (P : Plane ℝ) (alpha v : ℝ)
    (h : P.dragCoeff_checked M alpha = some v) : P.dragCoeff M alpha = v := by
  simp only [Plane.dragCoeff_checked, checked_div] at h
  by_cases hs : P.coefficient.s = 0
  · rw [if_pos hs] at h
    exact absurd h (by simp)
  · rw [if_neg hs, Option.some_bind] at h
    by_cases hd : M.pi * P.coefficient.oswald * (P.coefficient.b ^ 2 / P.coefficient.s) = 0
    · rw [if_pos hd] at h
      exact absurd h (by simp)
    · rw [if_neg hd, Option.map_some', Option.some.injEq] at h
      simpa only [Plane.dragCoeff] using h

/-- C8 (counterexample): in the drag scenario as the spec writes it the Oswald factor is
zero with the other derivatives, so the induced-drag quotient of `dragCoeff 0` is `0 / 0`:
the code yields no number there (NaN), in particular not `0.05`. Shown for a span of
`2`. -/
theorem scenario_dragCoeff_zero_div_zero :
    Plane.dragCoeff_checked
        ⟨Real.exp, Real.sin, Real.cos, fun y x => Complex.arg ⟨x, y⟩, Real.pi, false⟩
        (Plane.atRest { (Coefficient.zero : Coefficient ℝ) with b := 2 }).scenario 0 = none
      ∧ Plane.dragCoeff_checked
        ⟨Real.exp, Real.sin, Real.cos, fun y x => Complex.arg ⟨x, y⟩, Real.pi, false⟩
        (Plane.atRest { (Coefficient.zero : Coefficient ℝ) with b := 2 }).scenario 0
          ≠ some 0.05 := by
  have h : Plane.dragCoeff_checked
      ⟨Real.exp, Real.sin, Real.cos, fun y x => Complex.arg ⟨x, y⟩, Real.pi, false⟩
      (Plane.atRest { (Coefficient.zero : Coefficient ℝ) with b := 2 }).scenario 0 = none := by
    simp [Plane.dragCoeff_checked, checked_div, Plane.scenario, Plane.atRest, Coefficient.zero]
  exact ⟨h, by rw [h]; exact Option.noConfusion⟩

/-- C8 (as amended): in the drag scenario of the spec with a non-zero Oswald factor and
a non-zero span (every derivative zero except `c_drag_p = 0.05`, angle of attack `0`,
airspeed `10`, air density `1.225`, wing area `1`, any control inputs), neither division
of `dragCoeff` has a zero divisor and `dragCoeff 0 = 0.05`, the dynamic pressure is
`0.5 · 1.225 · 100 · 1 = 61.25`, and `getForce` returns
`(61.25 · (−0.05), 0, 0) = (−3.0625, 0, 0)`. -/
theorem scenario_force (at2 : ℝ → ℝ → ℝ) (nz : Bool) (P : Plane ℝ) (oswald a e r : ℝ)
    (hoswald : oswald ≠ 0) (hb : P.coefficient.b ≠ 0) :
    Plane.dragCoeff_checked ⟨Real.exp, Real.sin, Real.cos, at2, Real.pi, nz⟩
        (P.scenario_oswald oswald) 0 = some 0.05
      ∧ Plane.dragCoeff ⟨Real.exp, Real.sin, Real.cos, at2, Real.pi, nz⟩
        (P.scenario_oswald oswald) 0 = 0.05
      ∧ 1 / 2 * (P.scenario_oswald oswald).air_density * (P.scenario_oswald oswald).airspeed ^ 2
          * (P.scenario_oswald oswald).coefficient.s = 61.25
      ∧ Plane.getForce ⟨Real.exp, Real.sin, Real.cos, at2, Real.pi, nz⟩
          (P.scenario_oswald oswald) a e r = ⟨-3.0625, 0, 0⟩ := by
  have hden : Real.pi * oswald * (P.coefficient.b ^ 2 / 1) ≠ 0 := by
    rw [div_one]
    exact mul_ne_zero (mul_ne_zero Real.pi_ne_zero hoswald) (pow_ne_zero 2 hb)
  have hchk : Plane.dragCoeff_checked ⟨Real.exp, Real.sin, Real.cos, at2, Real.pi, nz⟩
      (P.scenario_oswald oswald) 0 = some 0.05 := by
    simp only [Plane.dragCoeff_checked, checked_div, Plane.scenario_oswald, Plane.scenario,
      Coefficient.zero, one_ne_zero, if_false, Option.some_bind, hden, Option.map_some']
    norm_num
  have h10 : is_zero (10 : ℝ) = false := by
    simp only [is_zero, FLT_EPSILON, decide_eq_false_iff_not, not_lt]
    norm_num
  have hlift : Plane.liftCoeff ⟨Real.exp, Real.sin, Real.cos, at2, Real.pi, nz⟩
      (P.scenario_oswald oswald) 0 = 0 := by
    simp [Plane.liftCoeff, Plane.scenario_oswald, Plane.scenario, Coefficient.zero]
  have hdrag := dragCoeff_of_checked _ _ _ _ hchk
  refine ⟨hchk, hdrag, ?_, ?_⟩
  · simp only [Plane.scenario_oswald, Plane.scenario, Coefficient.zero]
    norm_num
  · have hs : (P.scenario_oswald oswald).angle_of_attack = 0 := rfl
    have ha : (P.scenario_oswald oswald).airspeed = 10 := rfl
    simp only [Plane.getForce, hs, ha, h10, hlift, hdrag]
    simp only [Plane.scenario_oswald, Plane.scenario, Coefficient.zero, Real.sin_zero,
      Real.cos_zero]
    norm_num

/-- Witness of `scenario_force`: the scenario on a plane of span `2` with the Oswald
factor `9/10` and the surfaces deflected. -/
theorem scenario_force_witness :
    Plane.dragCoeff_checked
        ⟨Real.exp, Real.sin, Real.cos, fun y x => Complex.arg ⟨x, y⟩, Real.pi, false⟩
        (Plane.scenario_oswald (9 / 10)
          (Plane.atRest { (Coefficient.zero : Coefficient ℝ) with b := 2 })) 0 = some 0.05
      ∧ Plane.dragCoeff
        ⟨Real.exp, Real.sin, Real.cos, fun y x => Complex.arg ⟨x, y⟩, Real.pi, false⟩
        (Plane.scenario_oswald (9 / 10)
          (Plane.atRest { (Coefficient.zero : Coefficient ℝ) with b := 2 })) 0 = 0.05
      ∧ 1 / 2 * (Plane.scenario_oswald (9 / 10)
            (Plane.atRest { (Coefficient.zero : Coefficient ℝ) with b := 2 })).air_density
          * (Plane.scenario_oswald (9 / 10)
            (Plane.atRest { (Coefficient.zero : Coefficient ℝ) with b := 2 })).airspeed ^ 2
          * (Plane.scenario_oswald (9 / 10)
            (Plane.atRest { (Coefficient.zero : Coefficient ℝ) with b := 2 })).coefficient.s
          = 61.25
      ∧ Plane.getForce
          ⟨Real.exp, Real.sin, Real.cos, fun y x => Complex.arg ⟨x, y⟩, Real.pi, false⟩
          (Plane.scenario_oswald (9 / 10)
            (Plane.atRest { (Coefficient.zero : Coefficient ℝ) with b := 2 }))
          1 (-1) (1 / 2) = ⟨-3.0625, 0, 0⟩ :=
  scenario_force (fun y x => Complex.arg ⟨x, y⟩) false
    (Plane.atRest { (Coefficient.zero : Coefficient ℝ) with b := 2 })
    (9 / 10) 1 (-1) (1 / 2)
    (by norm_num)
    (by norm_num [Plane.atRest, Coefficient.zero])

/-- C14 (counterexample): at unit airspeed and dynamic pressure, angle of attack `1`,
elevator drag derivative `1` and elevator at `1`, the body-z force of `getForce` is not
the expression of the claim, which carries `+ c_drag_deltae·sin(alpha)·|elevator|`: the
code subtracts that term, and the two differ by `2·sin 1`. -/
theorem getForce_body_z_drag_sign :
    (Plane.getForce
        ⟨Real.exp, Real.sin, Real.cos, fun y x => Complex.arg ⟨x, y⟩, Real.pi, false⟩
        (Plane.inFlow { (Coefficient.zero : Coefficient ℝ) with
          s := 1, b := 1, oswald := 1, c_drag_deltae := 1 } 1 1) 0 1 0).z
      ≠ 1 / 2 * 2 * (1 : ℝ) ^ 2 * 1
        * ((-Plane.dragCoeff
                ⟨Real.exp, Real.sin, Real.cos, fun y x => Complex.arg ⟨x, y⟩, Real.pi, false⟩
                (Plane.inFlow { (Coefficient.zero : Coefficient ℝ) with
                  s := 1, b := 1, oswald := 1, c_drag_deltae := 1 } 1 1) 1 * Real.sin 1
              - Plane.liftCoeff
                ⟨Real.exp, Real.sin, Real.cos, fun y x => Complex.arg ⟨x, y⟩, Real.pi, false⟩
                (Plane.inFlow { (Coefficient.zero : Coefficient ℝ) with
                  s := 1, b := 1, oswald := 1, c_drag_deltae := 1 } 1 1) 1 * Real.cos 1)
          + (-0 * Real.sin 1 - 0 * Real.cos 1) * 0 * 0 / (2 * 1)
          + 1 * Real.sin 1 * |1|
          - 0 * Real.cos 1 * 1) := by
  have hs : 0 < Real.sin 1 :=
    Real.sin_pos_of_pos_of_lt_pi one_pos (by linarith [Real.pi_gt_three])
  have hz : is_zero (Plane.inFlow { (Coefficient.zero : Coefficient ℝ) with
      s := 1, b := 1, oswald := 1, c_drag_deltae := 1 } 1 1).airspeed = false :=
    is_zero_eq_false _ (by norm_num [FLT_EPSILON, Plane.inFlow, Plane.atRest])
  rw [getForce_z_of_not_is_zero _ _ _ _ _ hz]
  intro h
  simp only [Plane.inFlow, Plane.atRest, Coefficient.zero, abs_one] at h
  ring_nf at h
  linarith

/-- With the real exponential the blend weight lies strictly between zero and one. -/
theorem sigmoid_pos_lt_one (at2 : ℝ → ℝ → ℝ) (nz : Bool) (P : Plane ℝ) (alpha : ℝ) :
    0 < Plane.sigmoid ⟨Real.exp, Real.sin, Real.cos, at2, Real.pi, nz⟩ P alpha
      ∧ Plane.sigmoid ⟨Real.exp, Real.sin, Real.cos, at2, Real.pi, nz⟩ P alpha < 1 := by
  rw [sigmoid_eq at2 nz P alpha]
  have p1 := Real.exp_pos (-(P.coefficient.mcoeff * (alpha - P.coefficient.alpha_stall)))
  have p2 := Real.exp_pos (P.coefficient.mcoeff * (alpha + P.coefficient.alpha_stall))
  have p12 := mul_pos p1 p2
  constructor
  · positivity
  · rw [div_lt_one (by positivity)]
    nlinarith

/-- With the real functions, `liftCoeff` is the blend of the linear value and the
flat-plate value with the mathematical sign, weighted by the blend weight of the code. -/
theorem liftCoeff_eq_sigmoid_blend (at2 : ℝ → ℝ → ℝ) (nz : Bool) (P : Plane ℝ) (alpha : ℝ) :
    Plane.liftCoeff ⟨Real.exp, Real.sin, Real.cos, at2, Real.pi, nz⟩ P alpha
      = (1 - Plane.sigmoid ⟨Real.exp, Real.sin, Real.cos, at2, Real.pi, nz⟩ P alpha)
          * (P.coefficient.c_lift_0 + P.coefficient.c_lift_a * alpha)
        + Plane.sigmoid ⟨Real.exp, Real.sin, Real.cos, at2, Real.pi, nz⟩ P alpha
          * (2 * Real.sign alpha * Real.sin alpha ^ 2 * Real.cos alpha) := by
  have hc := copysign_mul_sin_sq at2 nz alpha
  simp only at hc
  have hsign : Real.sign alpha * Real.sin alpha ^ 2
      = if 0 ≤ alpha then Real.sin alpha ^ 2 else -(Real.sin alpha ^ 2) := by
    rcases lt_trichotomy alpha 0 with h | h | h
    · simp [Real.sign_of_neg h, not_le.mpr h]
    · subst h; simp
    · simp [Real.sign_of_pos h, h.le]
  have e1 : 2 * Libm.copysign ⟨Real.exp, Real.sin, Real.cos, at2, Real.pi, nz⟩ 1 alpha
        * Real.sin alpha ^ 2 * Real.cos alpha
      = 2 * Real.sign alpha * Real.sin alpha ^ 2 * Real.cos alpha := by
    calc 2 * Libm.copysign ⟨Real.exp, Real.sin, Real.cos, at2, Real.pi, nz⟩ 1 alpha
          * Real.sin alpha ^ 2 * Real.cos alpha
        = 2 * (Libm.copysign ⟨Real.exp, Real.sin, Real.cos, at2, Real.pi, nz⟩ 1 alpha
          * Real.sin alpha ^ 2) * Real.cos alpha := by ring
      _ = 2 * (Real.sign alpha * Real.sin alpha ^ 2) * Real.cos alpha := by rw [hc, hsign]
      _ = 2 * Real.sign alpha * Real.sin alpha ^ 2 * Real.cos alpha := by ring
  simp only [Plane.liftCoeff]
  rw [e1]

/-- A blend with a weight between zero and one lies between the two blended values. -/
theorem blend_between (σ L F : ℝ) (h0 : 0 ≤ σ) (h1 : σ ≤ 1) :
    min L F ≤ (1 - σ) * L + σ * F ∧ (1 - σ) * L + σ * F ≤ max L F := by
  rcases le_total L F with h | h
  · rw [min_eq_left h, max_eq_right h]
    constructor <;> nlinarith
  · rw [min_eq_right h, max_eq_left h]
    constructor <;> nlinarith

/-- C16: for every stall angle, sharpness and `alpha`, the blend weight `σ` computed in
`liftCoeff` lies strictly between `0` and `1`; `liftCoeff alpha` is the blend
`(1 − σ)·L + σ·F` of the linear value `L = c_lift_0 + c_lift_a·alpha` and the flat-plate
value `F = 2·sign(alpha)·sin²(alpha)·cos(alpha)` (so it would be `L` at `σ = 0` and `F` at
`σ = 1`), and it lies between `L` and `F`. -/
theorem liftCoeff_between (at2 : ℝ → ℝ → ℝ) (nz : Bool) (P : Plane ℝ) (alpha : ℝ) :
    (0 < Plane.sigmoid ⟨Real.exp, Real.sin, Real.cos, at2, Real.pi, nz⟩ P alpha
      ∧ Plane.sigmoid ⟨Real.exp, Real.sin, Real.cos, at2, Real.pi, nz⟩ P alpha < 1)
    ∧ Plane.liftCoeff ⟨Real.exp, Real.sin, Real.cos, at2, Real.pi, nz⟩ P alpha
        = (1 - Plane.sigmoid ⟨Real.exp, Real.sin, Real.cos, at2, Real.pi, nz⟩ P alpha)
            * (P.coefficient.c_lift_0 + P.coefficient.c_lift_a * alpha)
          + Plane.sigmoid ⟨Real.exp, Real.sin, Real.cos, at2, Real.pi, nz⟩ P alpha
            * (2 * Real.sign alpha * Real.sin alpha ^ 2 * Real.cos alpha)
    ∧ min (P.coefficient.c_lift_0 + P.coefficient.c_lift_a * alpha)
          (2 * Real.sign alpha * Real.sin alpha ^ 2 * Real.cos alpha)
        ≤ Plane.liftCoeff ⟨Real.exp, Real.sin, Real.cos, at2, Real.pi, nz⟩ P alpha
    ∧ Plane.liftCoeff ⟨Real.exp, Real.sin, Real.cos, at2, Real.pi, nz⟩ P alpha
        ≤ max (P.coefficient.c_lift_0 + P.coefficient.c_lift_a * alpha)
          (2 * Real.sign alpha * Real.sin alpha ^ 2 * Real.cos alpha) := by
  have hσ := sigmoid_pos_lt_one at2 nz P alpha
  have hb := liftCoeff_eq_sigmoid_blend at2 nz P alpha
  have hbet := blend_between
    (Plane.sigmoid ⟨Real.exp, Real.sin, Real.cos, at2, Real.pi, nz⟩ P alpha)
    (P.coefficient.c_lift_0 + P.coefficient.c_lift_a * alpha)
    (2 * Real.sign alpha * Real.sin alpha ^ 2 * Real.cos alpha) hσ.1.le hσ.2.le
  refine ⟨hσ, hb, ?_, ?_⟩
  · rw [hb]; exact hbet.1
  · rw [hb]; exact hbet.2

/-- C17: for every coefficient set, `liftCoeff 0 = (1 − σ(0))·c_lift_0`, the flat-plate
term being zero at `alpha = 0` for either sign `copysign` yields; hence `liftCoeff 0 = 0`
when `c_lift_0 = 0`, for any stall angle, sharpness and lift slope. -/
theorem liftCoeff_zero (at2 : ℝ → ℝ → ℝ) (nz : Bool) (P : Plane ℝ) :
    Plane.liftCoeff ⟨Real.exp, Real.sin, Real.cos, at2, Real.pi, nz⟩ P 0
        = (1 - Plane.sigmoid ⟨Real.exp, Real.sin, Real.cos, at2, Real.pi, nz⟩ P 0)
          * P.coefficient.c_lift_0
      ∧ Plane.liftCoeff ⟨Real.exp, Real.sin, Real.cos, at2, Real.pi, nz⟩
          { P with coefficient := { P.coefficient with c_lift_0 := 0 } } 0 = 0 := by
  constructor <;> simp [Plane.liftCoeff]

/-- The blend weight written with the hyperbolic cosine:
`σ = 1 − 1/(1 + e^{−2·M·alpha0} + 2·e^{−M·alpha0}·cosh(M·alpha))`. -/
theorem sigmoid_eq_cosh (at2 : ℝ → ℝ → ℝ) (nz : Bool) (P : Plane ℝ) (alpha : ℝ) :
    Plane.sigmoid ⟨Real.exp, Real.sin, Real.cos, at2, Real.pi, nz⟩ P alpha
      = 1 - 1 / (1 + Real.exp (-2 * P.coefficient.mcoeff * P.coefficient.alpha_stall)
          + 2 * Real.exp (-P.coefficient.mcoeff * P.coefficient.alpha_stall)
            * Real.cosh (P.coefficient.mcoeff * alpha)) := by
  rw [sigmoid_eq at2 nz P alpha, Real.cosh_eq]
  have ha := Real.exp_pos (P.coefficient.mcoeff * P.coefficient.alpha_stall)
  have hu := Real.exp_pos (P.coefficient.mcoeff * alpha)
  have e1 : Real.exp (-(P.coefficient.mcoeff * (alpha - P.coefficient.alpha_stall)))
      = Real.exp (P.coefficient.mcoeff * P.coefficient.alpha_stall)
        * (Real.exp (P.coefficient.mcoeff * alpha))⁻¹ := by
    rw [← Real.exp_neg, ← Real.exp_add]; congr 1; ring
  have e2 : Real.exp (P.coefficient.mcoeff * (alpha + P.coefficient.alpha_stall))
      = Real.exp (P.coefficient.mcoeff * P.coefficient.alpha_stall)
        * Real.exp (P.coefficient.mcoeff * alpha) := by
    rw [← Real.exp_add]; congr 1; ring
  have e3 : Real.exp (-2 * P.coefficient.mcoeff * P.coefficient.alpha_stall)
      = (Real.exp (P.coefficient.mcoeff * P.coefficient.alpha_stall))⁻¹ ^ 2 := by
    rw [← Real.exp_neg, ← Real.exp_nat_mul]; congr 1; push_cast; ring
  have e4 : Real.exp (-P.coefficient.mcoeff * P.coefficient.alpha_stall)
      = (Real.exp (P.coefficient.mcoeff * P.coefficient.alpha_stall))⁻¹ := by
    rw [← Real.exp_neg]; congr 1; ring
  have e5 : Real.exp (-(P.coefficient.mcoeff * alpha))
      = (Real.exp (P.coefficient.mcoeff * alpha))⁻¹ := Real.exp_neg _
  rw [e1, e2, e3, e4, e5]
  generalize Real.exp (P.coefficient.mcoeff * P.coefficient.alpha_stall) = a at ha
  generalize Real.exp (P.coefficient.mcoeff * alpha) = u at hu
  have hne : a ≠ 0 := ha.ne'
  have hune : u ≠ 0 := hu.ne'
  have hd1 : (1 + a * u⁻¹) * (1 + a * u) ≠ 0 := by positivity
  have hd2 : 1 + a⁻¹ ^ 2 + 2 * a⁻¹ * ((u + u⁻¹) / 2) ≠ 0 := by positivity
  field_simp
  ring

/-- C19: the blend weight `σ` of `liftCoeff` is an even function of `alpha`; it equals
`1 − 1/(1 + e^{−2·M·alpha0} + 2·e^{−M·alpha0}·cosh(M·alpha))`; it is smallest at
`alpha = 0`; and for `M ≠ 0` it is strictly increasing in `|alpha|`. -/
theorem sigmoid_even_increasing (at2 : ℝ → ℝ → ℝ) (nz : Bool) (P : Plane ℝ) (alpha : ℝ) :
    Plane.sigmoid ⟨Real.exp, Real.sin, Real.cos, at2, Real.pi, nz⟩ P (-alpha)
        = Plane.sigmoid ⟨Real.exp, Real.sin, Real.cos, at2, Real.pi, nz⟩ P alpha
      ∧ Plane.sigmoid ⟨Real.exp, Real.sin, Real.cos, at2, Real.pi, nz⟩ P alpha
        = 1 - 1 / (1 + Real.exp (-2 * P.coefficient.mcoeff * P.coefficient.alpha_stall)
            + 2 * Real.exp (-P.coefficient.mcoeff * P.coefficient.alpha_stall)
              * Real.cosh (P.coefficient.mcoeff * alpha))
      ∧ Plane.sigmoid ⟨Real.exp, Real.sin, Real.cos, at2, Real.pi, nz⟩ P 0
        ≤ Plane.sigmoid ⟨Real.exp, Real.sin, Real.cos, at2, Real.pi, nz⟩ P alpha
      ∧ (P.coefficient.mcoeff ≠ 0 → ∀ alpha' : ℝ, |alpha| < |alpha'| →
          Plane.sigmoid ⟨Real.exp, Real.sin, Real.cos, at2, Real.pi, nz⟩ P alpha
            < Plane.sigmoid ⟨Real.exp, Real.sin, Real.cos, at2, Real.pi, nz⟩ P alpha') := by
  have ha := Real.exp_pos (-2 * P.coefficient.mcoeff * P.coefficient.alpha_stall)
  have hb := Real.exp_pos (-P.coefficient.mcoeff * P.coefficient.alpha_stall)
  have hmono : ∀ x y : ℝ, Real.cosh x ≤ Real.cosh y →
      1 - 1 / (1 + Real.exp (-2 * P.coefficient.mcoeff * P.coefficient.alpha_stall)
          + 2 * Real.exp (-P.coefficient.mcoeff * P.coefficient.alpha_stall) * Real.cosh x)
        ≤ 1 - 1 / (1 + Real.exp (-2 * P.coefficient.mcoeff * P.coefficient.alpha_stall)
          + 2 * Real.exp (-P.coefficient.mcoeff * P.coefficient.alpha_stall)
            * Real.cosh y) := by
    intro x y hxy
    have hx := Real.cosh_pos x
    apply sub_le_sub_left
    apply one_div_le_one_div_of_le (by positivity)
    nlinarith
  have hstrict : ∀ x y : ℝ, Real.cosh x < Real.cosh y →
      1 - 1 / (1 + Real.exp (-2 * P.coefficient.mcoeff * P.coefficient.alpha_stall)
          + 2 * Real.exp (-P.coefficient.mcoeff * P.coefficient.alpha_stall) * Real.cosh x)
        < 1 - 1 / (1 + Real.exp (-2 * P.coefficient.mcoeff * P.coefficient.alpha_stall)
          + 2 * Real.exp (-P.coefficient.mcoeff * P.coefficient.alpha_stall)
            * Real.cosh y) := by
    intro x y hxy
    have hx := Real.cosh_pos x
    apply sub_lt_sub_left
    apply one_div_lt_one_div_of_lt (by positivity)
    nlinarith
  refine ⟨?_, sigmoid_eq_cosh at2 nz P alpha, ?_, ?_⟩
  · rw [sigmoid_eq_cosh, sigmoid_eq_cosh, mul_neg, Real.cosh_neg]
  · rw [sigmoid_eq_cosh, sigmoid_eq_cosh]
    apply hmono
    rw [mul_zero, Real.cosh_zero]
    exact Real.one_le_cosh _
  · intro hM alpha' hlt
    rw [sigmoid_eq_cosh, sigmoid_eq_cosh]
    apply hstrict
    rw [Real.cosh_lt_cosh, abs_mul, abs_mul]
    exact mul_lt_mul_of_pos_left hlt (abs_pos.mpr hM)

/-- Witness of `sigmoid_even_increasing`: with sharpness `1` and stall angle `1` the blend
weight at `alpha = 1` exceeds the one at `alpha = 0`. -/
theorem sigmoid_even_increasing_witness :
    Plane.sigmoid ⟨Real.exp, Real.sin, Real.cos, fun y x => Complex.arg ⟨x, y⟩, Real.pi, false⟩
        (Plane.atRest { (Coefficient.zero : Coefficient ℝ) with mcoeff := 1, alpha_stall := 1 })
        0
      < Plane.sigmoid
        ⟨Real.exp, Real.sin, Real.cos, fun y x => Complex.arg ⟨x, y⟩, Real.pi, false⟩
        (Plane.atRest { (Coefficient.zero : Coefficient ℝ) with mcoeff := 1, alpha_stall := 1 })
        1 :=
  (sigmoid_even_increasing (fun y x => Complex.arg ⟨x, y⟩) false
    (Plane.atRest { (Coefficient.zero : Coefficient ℝ) with mcoeff := 1, alpha_stall := 1 })
    0).2.2.2 (by norm_num [Plane.atRest]) 1 (by norm_num)

end RealModel

end SITL
